import Mathlib

/-!
Verification of the IdeaFlow whiteboard interaction engine (`src/App.tsx`).

The definitions below are a shallow embedding of the canvas state and of the
event handlers of `App.tsx`: JavaScript numbers are modelled as rationals,
optional record fields as `Option`, and each React state update as a pure
function on an explicit `AppState`.  The theorems settle the frozen claims
about coordinate transforms, history, creation, resize, alignment, duplicate,
freehand normalization, paste and drawing z-order.
-/

namespace IdeaFlow

/-- A 2-D point (`types.ts` `Point`, as used throughout `App.tsx`). -/
structure Point where
  x : ℚ
  y : ℚ
deriving DecidableEq, Repr, Inhabited

/-- Tool / element type tags (`types.ts` `ToolType`; spec section 3 variant set). -/
inductive ToolType
  | select
  | pen
  | highlighter
  | text
  | sticky
  | rect
  | circle
  | triangle
  | rhombus
  | arrow
  | line
  | cylinder
  | image
deriving DecidableEq, Repr, Inhabited

/-- A board element (`types.ts` `BoardElement`; fields as used in `App.tsx`,
spec section 3).  Optional JS fields are `Option`; `zIndex` is an integer
because `back` assigns `minZ - 1`. -/
structure BoardElement where
  id : String
  type : ToolType
  x : ℚ
  y : ℚ
  width : Option ℚ := none
  height : Option ℚ := none
  rotation : Option ℚ := none
  zIndex : Int := 0
  content : Option String := none
  points : Option (List Point) := none
  color : Option String := none
  fillColor : Option String := none
  strokeColor : Option String := none
  strokeWidth : Option ℚ := none
  fontSize : Option ℚ := none
deriving DecidableEq, Repr, Inhabited

/-- The pan/zoom view transform (`App.tsx` `viewTransform`). -/
structure ViewTransform where
  x : ℚ
  y : ℚ
  scale : ℚ
deriving DecidableEq, Repr, Inhabited

/-- `screenToWorld` from `App.tsx` (lines 102-107). -/
def screenToWorld (t : ViewTransform) (screenX screenY : ℚ) : Point :=
  { x := (screenX - t.x) / t.scale
    y := (screenY - t.y) / t.scale }

/-- The wheel-zoom handler `handleWheel` from `App.tsx` (lines 464-481):
`scaleAmount = -deltaY * 0.001`, the new scale is clamped to `[0.1, 5]`,
and the offsets are re-solved so the world point under the mouse stays put. -/
def handleWheel (t : ViewTransform) (mouseX mouseY deltaY : ℚ) : ViewTransform :=
  let scaleAmount : ℚ := -deltaY * (1 / 1000)
  let newScale : ℚ := min (max (1 / 10) (t.scale * (1 + scaleAmount))) 5
  let worldX : ℚ := (mouseX - t.x) / t.scale
  let worldY : ℚ := (mouseY - t.y) / t.scale
  { x := mouseX - worldX * newScale
    y := mouseY - worldY * newScale
    scale := newScale }

/-- The part of the `App` component state the claims are about: the history
snapshots with their cursor (`history`, `historyStep`), the element store
(`elements`) and the selection (`selectedIds`). -/
structure AppState where
  history : List (List BoardElement)
  historyStep : ℕ
  elements : List BoardElement
  selectedIds : List String
deriving DecidableEq, Repr, Inhabited

/-- The initial component state: `history = [[]]`, `historyStep = 0`,
no elements, empty selection (`App.tsx` lines 21-25, 48). -/
def initState : AppState :=
  { history := [[]], historyStep := 0, elements := [], selectedIds := [] }

/-- `addToHistory` from `App.tsx` (lines 40-45): truncate the history to
`[0..historyStep]`, append the new collection, move the cursor to the new
last index.  (It does not touch `elements`; callers set those separately.) -/
def addToHistory (s : AppState) (newElements : List BoardElement) : AppState :=
  let newHistory := s.history.take (s.historyStep + 1) ++ [newElements]
  { s with history := newHistory, historyStep := newHistory.length - 1 }

/-- `handleUndo` from `App.tsx` (lines 191-195), combined with the
`useEffect` (lines 36-38) that re-derives `elements` from the history. -/
def handleUndo (s : AppState) : AppState :=
  if 0 < s.historyStep then
    { s with historyStep := s.historyStep - 1
             elements := s.history.getD (s.historyStep - 1) [] }
  else s

/-- `handleRedo` from `App.tsx` (lines 197-201), combined with the
`useEffect` (lines 36-38) that re-derives `elements` from the history. -/
def handleRedo (s : AppState) : AppState :=
  if s.historyStep < s.history.length - 1 then
    { s with historyStep := s.historyStep + 1
             elements := s.history.getD (s.historyStep + 1) [] }
  else s

/-- The `setElements(newEls); addToHistory(newEls)` pattern every discrete
mutation in `App.tsx` uses to commit a finished collection. -/
def commitEls (s : AppState) (c : List BoardElement) : AppState :=
  addToHistory { s with elements := c } c

/-- A sequence of commits, one per collection in order. -/
def commitList (s : AppState) (cs : List (List BoardElement)) : AppState :=
  cs.foldl commitEls s

/-- A sample committed element, used in concrete witnesses. -/
def eH : BoardElement :=
  { id := "h1", type := ToolType.rect, x := 1, y := 2,
    width := some 30, height := some 40, zIndex := 1 }

/-- The element created by a drag-to-create pointer-down (`App.tsx` lines
534-561): zero width/height at the pointer position, tool-dependent styling. -/
def createShapeElement (count : ℕ) (tool : ToolType) (id : String) (pos : Point) :
    BoardElement :=
  let isSticky := tool = ToolType.sticky
  let isText := tool = ToolType.text
  { id := id
    type := tool
    x := pos.x
    y := pos.y
    zIndex := (count : Int) + 1
    width := some 0
    height := some 0
    content := if isSticky ∨ isText then some "Double click to edit" else none
    color := some (if isSticky then "#fef3c7" else if isText then "#1f2937" else "transparent")
    fillColor := if isSticky then some "#fef3c7"
                 else if isText then none else some "transparent"
    strokeColor := if isSticky ∨ isText then none else some "#000000"
    strokeWidth := some 3
    fontSize := some (if isText then 24 else 18)
    rotation := some 0 }

/-- The drag-to-create branch of `handleMouseDown` (`App.tsx` lines 534-561):
insert the zero-size element and select it exclusively. -/
def shapePointerDown (s : AppState) (tool : ToolType) (id : String) (pos : Point) :
    AppState :=
  { s with
      elements := s.elements ++ [createShapeElement s.elements.length tool id pos]
      selectedIds := [id] }

/-- JS truthiness of the test `el.width && el.width < 5` (`App.tsx` line 720):
an absent field and the number `0` are both falsy, so the conjunct only
holds for a present, non-zero value below 5. -/
def truthyAndLtFive (o : Option ℚ) : Bool :=
  match o with
  | none => false
  | some w => decide (w ≠ 0) && decide (w < 5)

/-- The degenerate-creation test `el.width && el.width < 5 && el.height &&
el.height < 5` from `App.tsx` line 720. -/
def discardCheck (el : BoardElement) : Bool :=
  truthyAndLtFive el.width && truthyAndLtFive el.height

/-- The drag-to-create branch of `handleMouseUp` (`App.tsx` lines 717-727):
look up the single selected element; if the degenerate test passes, remove it
and clear the selection, otherwise commit the current collection to history. -/
def creationPointerUp (s : AppState) : AppState :=
  match s.selectedIds with
  | [selId] =>
      match s.elements.find? (fun e => e.id == selId) with
      | some el =>
          if discardCheck el then
            { s with
                elements := s.elements.filter (fun e => !(e.id == selId))
                selectedIds := [] }
          else addToHistory s s.elements
      | none => addToHistory s s.elements
  | _ => s

/-- `handleContentChange`'s per-element update (`App.tsx` lines 837-839). -/
def contentUpdate (id newContent : String) (el : BoardElement) : BoardElement :=
  if el.id == id then { el with content := some newContent } else el

/-- `handleContentChange` from `App.tsx` (lines 837-839): rewrite the content
of the matching element; no history call. -/
def handleContentChange (s : AppState) (id newContent : String) : AppState :=
  { s with elements := s.elements.map (contentUpdate id newContent) }

/-- `createTextElementAtCenter` from `App.tsx` (lines 251-270), with the
viewport centre and the fresh id passed in as parameters. -/
def createTextElementAtCenter (count : ℕ) (id : String) (centerX centerY : ℚ)
    (text : String) : BoardElement :=
  let isShort := text.length < 50
  { id := id
    type := if isShort then ToolType.sticky else ToolType.text
    x := centerX - 100
    y := centerY - 50
    width := some 200
    height := some (if isShort then 200 else 100)
    content := some text
    color := some (if isShort then "#fef3c7" else "#1f2937")
    zIndex := (count : Int) + 1 }

/-- The window-level paste listener (`App.tsx` lines 867-881): if the
clipboard text is truthy (non-empty), append the new element; no history call. -/
def pasteListenerStep (s : AppState) (id : String) (centerX centerY : ℚ)
    (text : String) : AppState :=
  if text = "" then s
  else
    { s with
        elements :=
          s.elements ++ [createTextElementAtCenter s.elements.length id centerX centerY text] }

/-- The explicit `handlePaste` action (`App.tsx` lines 272-285): if the
clipboard text is truthy, append the new element and commit to history. -/
def handlePasteStep (s : AppState) (id : String) (centerX centerY : ℚ)
    (text : String) : AppState :=
  if text = "" then s
  else
    commitEls s
      (s.elements ++ [createTextElementAtCenter s.elements.length id centerX centerY text])

/-- A pen or highlighter stroke configuration (`App.tsx` lines 28-29). -/
structure StrokeConfig where
  color : String
  width : ℚ
deriving DecidableEq, Repr, Inhabited

/-- The element created by the free-drawing branch of `handleMouseDown`
(`App.tsx` lines 509-531): a single captured point, and
`zIndex = 0` for the highlighter, `elements.length + 1` otherwise. -/
def drawingElement (count : ℕ) (tool : ToolType) (penConfig markerConfig : StrokeConfig)
    (id : String) (pos : Point) : BoardElement :=
  let config := if tool = ToolType.pen then penConfig else markerConfig
  { id := id
    type := tool
    x := 0
    y := 0
    points := some [pos]
    color := some config.color
    strokeWidth := some config.width
    zIndex := if tool = ToolType.highlighter then 0 else (count : Int) + 1
    width := some (pos.x + config.width * 2)
    height := some (pos.y + config.width * 2)
    rotation := some 0 }

/-- The free-drawing branch of `handleMouseDown`: append the new stroke. -/
def drawingPointerDown (s : AppState) (tool : ToolType)
    (penConfig markerConfig : StrokeConfig) (id : String) (pos : Point) : AppState :=
  { s with
      elements :=
        s.elements ++ [drawingElement s.elements.length tool penConfig markerConfig id pos] }

/-- `Math.min` folded over the values of `f` on a list, seeded with `d`
(`Math.min(...)` over a non-empty list seeds at its first value). -/
def foldMin {α : Type} (f : α → ℚ) (d : ℚ) (l : List α) : ℚ :=
  l.foldl (fun a p => min a (f p)) d

/-- `Math.max` folded over the values of `f` on a list, seeded with `d`. -/
def foldMax {α : Type} (f : α → ℚ) (d : ℚ) (l : List α) : ℚ :=
  l.foldl (fun a p => max a (f p)) d

/-- `normalizeDrawing` from `App.tsx` (lines 433-460): recompute the tight
bounding box of the stroke points, pad it by 5, floor the box at 20×20, and
re-base every point to the padded box's top-left corner. -/
def normalizeDrawing (el : BoardElement) : BoardElement :=
  match el.points with
  | none => el
  | some [] => el
  | some (p :: ps) =>
      let minX := foldMin Point.x p.x ps
      let minY := foldMin Point.y p.y ps
      let maxX := foldMax Point.x p.x ps
      let maxY := foldMax Point.y p.y ps
      let padding : ℚ := 5
      let width := max 20 (maxX - minX + padding * 2)
      let height := max 20 (maxY - minY + padding * 2)
      let normalizedPoints := (p :: ps).map (fun q =>
        Point.mk (q.x - minX + padding) (q.y - minY + padding))
      { el with
          x := minX - padding
          y := minY - padding
          width := some width
          height := some height
          points := some normalizedPoints }

/-- A one-point pen stroke: the tight span is 0, so the 20-unit floor bites. -/
def ePenOne : BoardElement :=
  { id := "d2", type := ToolType.pen, x := 0, y := 0,
    points := some [⟨7, 9⟩], zIndex := 1 }

/-- The three-point pen stroke `[(10,10),(50,10),(50,50)]` of the spec example. -/
def ePenTri : BoardElement :=
  { id := "d3", type := ToolType.pen, x := 0, y := 0,
    points := some [⟨10, 10⟩, ⟨50, 10⟩, ⟨50, 50⟩], zIndex := 1 }

/-- The eight compass resize-handle directions. -/
inductive HandleDir
  | n
  | s
  | e
  | w
  | ne
  | nw
  | se
  | sw
deriving DecidableEq, Repr, Inhabited

/-- `handle.includes('e')` on the compass-direction string. -/
def hasE : HandleDir → Bool
  | HandleDir.e => true
  | HandleDir.ne => true
  | HandleDir.se => true
  | _ => false

/-- `handle.includes('w')` on the compass-direction string. -/
def hasW : HandleDir → Bool
  | HandleDir.w => true
  | HandleDir.nw => true
  | HandleDir.sw => true
  | _ => false

/-- `handle.includes('n')` on the compass-direction string. -/
def hasN : HandleDir → Bool
  | HandleDir.n => true
  | HandleDir.ne => true
  | HandleDir.nw => true
  | _ => false

/-- `handle.includes('s')` on the compass-direction string. -/
def hasS : HandleDir → Bool
  | HandleDir.s => true
  | HandleDir.se => true
  | HandleDir.sw => true
  | _ => false

/-- The resize gesture's captured data (`App.tsx` lines 64-73, 801-817). -/
structure ResizeInfo where
  handle : HandleDir
  startX : ℚ
  startY : ℚ
  initialX : ℚ
  initialY : ℚ
  initialWidth : ℚ
  initialHeight : ℚ
deriving DecidableEq, Repr, Inhabited

/-- The width after the edge-specific deltas of `handleMouseMove`
(`App.tsx` lines 610-611), before the 20-unit floor. -/
def rawResizeWidth (r : ResizeInfo) (dx : ℚ) : ℚ :=
  let w1 := if hasE r.handle then r.initialWidth + dx else r.initialWidth
  if hasW r.handle then w1 - dx else w1

/-- The x position after the edge-specific deltas, before the floor clamp. -/
def rawResizeX (r : ResizeInfo) (dx : ℚ) : ℚ :=
  if hasW r.handle then r.initialX + dx else r.initialX

/-- The height after the edge-specific deltas (`App.tsx` lines 612-613),
before the 20-unit floor. -/
def rawResizeHeight (r : ResizeInfo) (dy : ℚ) : ℚ :=
  let h1 := if hasS r.handle then r.initialHeight + dy else r.initialHeight
  if hasN r.handle then h1 - dy else h1

/-- The y position after the edge-specific deltas, before the floor clamp. -/
def rawResizeY (r : ResizeInfo) (dy : ℚ) : ℚ :=
  if hasN r.handle then r.initialY + dy else r.initialY

/-- A plain box, the result of one resize move event. -/
structure Box where
  x : ℚ
  y : ℚ
  w : ℚ
  h : ℚ
deriving DecidableEq, Repr, Inhabited

/-- The resize branch of `handleMouseMove` (`App.tsx` lines 594-627):
apply the handle's deltas to the captured initial geometry, then enforce the
20-unit floor per axis, clamping `x`/`y` for `w`/`n` handles so the opposite
edge stays fixed. -/
def applyResize (r : ResizeInfo) (posX posY : ℚ) : Box :=
  let dx := posX - r.startX
  let dy := posY - r.startY
  let width := rawResizeWidth r dx
  let height := rawResizeHeight r dy
  let x := rawResizeX r dx
  let y := rawResizeY r dy
  { x := if width < 20 ∧ hasW r.handle then r.initialX + r.initialWidth - 20 else x
    y := if height < 20 ∧ hasN r.handle then r.initialY + r.initialHeight - 20 else y
    w := if width < 20 then 20 else width
    h := if height < 20 then 20 else height }

/-- The element-store update of one resize move event: the selected element
gets the resized box, all others are untouched. -/
def resizeMove (els : List BoardElement) (selId : String) (r : ResizeInfo)
    (posX posY : ℚ) : List BoardElement :=
  els.map (fun el =>
    if el.id == selId then
      { el with
          x := (applyResize r posX posY).x
          y := (applyResize r posX posY).y
          width := some (applyResize r posX posY).w
          height := some (applyResize r posX posY).h }
    else el)

/-- A world-space bounding box as accumulated by `handleAlign`. -/
structure Bounds where
  minX : ℚ
  maxX : ℚ
  minY : ℚ
  maxY : ℚ
deriving DecidableEq, Repr, Inhabited

/-- The six alignment edges. -/
inductive AlignType
  | left
  | center
  | right
  | top
  | middle
  | bottom
deriving DecidableEq, Repr, Inhabited

/-- The union bounding box of the selected elements (`App.tsx` lines 332-339);
the `Infinity`-seeded `Math.min`/`Math.max` fold over a non-empty list equals
the fold seeded at the first element's box. -/
def unionBounds (first : BoardElement) (rest : List BoardElement) : Bounds :=
  rest.foldl
    (fun b el =>
      { minX := min b.minX el.x
        maxX := max b.maxX (el.x + el.width.getD 0)
        minY := min b.minY el.y
        maxY := max b.maxY (el.y + el.height.getD 0) })
    { minX := first.x
      maxX := first.x + first.width.getD 0
      minY := first.y
      maxY := first.y + first.height.getD 0 }

/-- The single-selection viewport bounds of `handleAlign`
(`App.tsx` lines 316-331). -/
def viewportBounds (rectW rectH : ℚ) (vt : ViewTransform) : Bounds :=
  { minX := -vt.x / vt.scale
    maxX := -vt.x / vt.scale + rectW / vt.scale
    minY := -vt.y / vt.scale
    maxY := -vt.y / vt.scale + rectH / vt.scale }

/-- The per-element new x of `handleAlign`'s switch (`App.tsx` lines 350-357). -/
def alignNewX (ty : AlignType) (b : Bounds) (el : BoardElement) : ℚ :=
  match ty with
  | AlignType.left => b.minX
  | AlignType.center => (b.minX + b.maxX) / 2 - el.width.getD 0 / 2
  | AlignType.right => b.maxX - el.width.getD 0
  | _ => el.x

/-- The per-element new y of `handleAlign`'s switch (`App.tsx` lines 350-357). -/
def alignNewY (ty : AlignType) (b : Bounds) (el : BoardElement) : ℚ :=
  match ty with
  | AlignType.top => b.minY
  | AlignType.middle => (b.minY + b.maxY) / 2 - el.height.getD 0 / 2
  | AlignType.bottom => b.maxY - el.height.getD 0
  | _ => el.y

/-- `handleAlign` from `App.tsx` (lines 305-364): empty selection is a no-op;
a single selected element aligns to the viewport box, several align to their
union box; repositioned elements keep the other axis; one commit at the end. -/
def handleAlign (rectW rectH : ℚ) (vt : ViewTransform) (ty : AlignType)
    (s : AppState) : AppState :=
  if s.selectedIds.isEmpty then s
  else
    match s.elements.filter (fun el => s.selectedIds.contains el.id) with
    | [] => s
    | first :: rest =>
        let bounds :=
          if rest.isEmpty then viewportBounds rectW rectH vt
          else unionBounds first rest
        let newElements := s.elements.map (fun el =>
          if s.selectedIds.contains el.id then
            { el with x := alignNewX ty bounds el, y := alignNewY ty bounds el }
          else el)
        commitEls s newElements

/-- Selected elements for the C7 witness. -/
def elA7 : BoardElement :=
  { id := "a", type := ToolType.rect, x := 0, y := 0,
    width := some 50, height := some 10, zIndex := 1 }

/-- Second selected element for the C7 witness. -/
def elB7 : BoardElement :=
  { id := "b", type := ToolType.rect, x := 100, y := 30,
    width := some 30, height := some 10, zIndex := 2 }

/-- A two-element, both-selected state for the C7 witness. -/
def sAlign : AppState :=
  { history := [[]], historyStep := 0, elements := [elA7, elB7],
    selectedIds := ["a", "b"] }

/-- The duplicate loop of `handleContextMenuAction` (`App.tsx` lines 390-403):
for each target id found in the store, push a copy with the next fresh id,
position offset by (+20,+20) and `zIndex = elements.length +
duplicates.length + 1` (`k` counts the duplicates pushed so far). -/
def mkDuplicates (els : List BoardElement) (base : ℕ) :
    ℕ → List String → List String → List BoardElement
  | _, [], _ => []
  | k, tid :: rest, fresh =>
      match els.find? (fun e => e.id == tid) with
      | some el =>
          { el with
              id := fresh.headD ""
              x := el.x + 20
              y := el.y + 20
              zIndex := ((base + k + 1 : ℕ) : Int) }
            :: mkDuplicates els base (k + 1) rest (fresh.drop 1)
      | none => mkDuplicates els base k rest fresh

/-- The duplicates produced for a state's element store. -/
def dupsOf (s : AppState) (targetIds freshIds : List String) : List BoardElement :=
  mkDuplicates s.elements s.elements.length 0 targetIds freshIds

/-- The `duplicate` branch of `handleContextMenuAction` (`App.tsx` lines
390-407, 428-429): append the duplicates, select exactly them, commit. -/
def duplicateAction (s : AppState) (targetIds freshIds : List String) : AppState :=
  addToHistory
    { s with
        elements := s.elements ++ dupsOf s targetIds freshIds
        selectedIds := (dupsOf s targetIds freshIds).map (fun d => d.id) }
    (s.elements ++ dupsOf s targetIds freshIds)

/-- A store whose only element has `zIndex = 5`, larger than the element
count: the duplicate's count-based z-index lands below it. -/
def elZ : BoardElement :=
  { id := "a", type := ToolType.rect, x := 0, y := 0,
    width := some 10, height := some 10, zIndex := 5 }

/-- State for the C4 counterexample. -/
def sDup : AppState :=
  { history := [[]], historyStep := 0, elements := [elZ], selectedIds := ["a"] }

/-- Elements for the C4 witness. -/
def elA4 : BoardElement :=
  { id := "a", type := ToolType.rect, x := 0, y := 0,
    width := some 10, height := some 10, zIndex := 1 }

/-- Second element for the C4 witness. -/
def elB4 : BoardElement :=
  { id := "b", type := ToolType.sticky, x := 40, y := 40,
    width := some 10, height := some 10, zIndex := 2 }

/-- State for the C4 witness. -/
def sDup2 : AppState :=
  { history := [[]], historyStep := 0, elements := [elA4, elB4],
    selectedIds := ["a", "b"] }

end IdeaFlow

namespace IdeaFlow

/-- C3: wheel zoom computes `newScale = clamp(scale * (1 + (-deltaY) * 0.001), 0.1, 5)`
and `newX = mouseX - worldX * newScale` (same for Y), and with `0 < scale`
the world point under the mouse is unchanged by the zoom:
`screenToWorld` at the mouse position agrees before and after `handleWheel`. -/
theorem C3_wheel_zoom_anchor (t : ViewTransform) (mouseX mouseY deltaY : ℚ)
    (hscale : 0 < t.scale) :
    (handleWheel t mouseX mouseY deltaY).scale
        = min (max (1 / 10) (t.scale * (1 + -deltaY * (1 / 1000)))) 5
    ∧ (handleWheel t mouseX mouseY deltaY).x
        = mouseX - (mouseX - t.x) / t.scale * (handleWheel t mouseX mouseY deltaY).scale
    ∧ (handleWheel t mouseX mouseY deltaY).y
        = mouseY - (mouseY - t.y) / t.scale * (handleWheel t mouseX mouseY deltaY).scale
    ∧ screenToWorld (handleWheel t mouseX mouseY deltaY) mouseX mouseY
        = screenToWorld t mouseX mouseY := by
  have hns : (0 : ℚ) < min (max (1 / 10) (t.scale * (1 + -deltaY * (1 / 1000)))) 5 := by
    have h1 : (0 : ℚ) < 1 / 10 := by norm_num
    have h2 : (1 / 10 : ℚ) ≤ max (1 / 10) (t.scale * (1 + -deltaY * (1 / 1000))) :=
      le_max_left _ _
    have h5 : (0 : ℚ) < 5 := by norm_num
    exact lt_min (lt_of_lt_of_le h1 h2) h5
  refine ⟨rfl, rfl, rfl, ?_⟩
  have hne : min (max (1 / 10) (t.scale * (1 + -deltaY * (1 / 1000)))) 5 ≠ 0 := ne_of_gt hns
  simp only [screenToWorld, handleWheel, Point.mk.injEq]
  constructor
  · field_simp
    ring
  · field_simp
    ring

/-- Running `commitList` from a state whose history is `[] :: ds` with the
cursor on the last snapshot appends the committed collections one by one. -/
theorem commitList_run (cs : List (List BoardElement)) :
    ∀ (ds : List (List BoardElement)) (e : List BoardElement) (sel : List String),
      commitList { history := [] :: ds, historyStep := ds.length,
                   elements := e, selectedIds := sel } cs
        = { history := [] :: (ds ++ cs), historyStep := (ds ++ cs).length,
            elements := cs.getLastD e, selectedIds := sel } := by
  induction cs with
  | nil => intro ds e sel; simp [commitList]
  | cons c cs ih =>
      intro ds e sel
      have hstep :
          commitEls { history := [] :: ds, historyStep := ds.length,
                      elements := e, selectedIds := sel } c
            = { history := [] :: (ds ++ [c]), historyStep := (ds ++ [c]).length,
                elements := c, selectedIds := sel } := by
        simp [commitEls, addToHistory, List.take_succ_cons]
      calc commitList { history := [] :: ds, historyStep := ds.length,
                        elements := e, selectedIds := sel } (c :: cs)
          = commitList { history := [] :: (ds ++ [c]), historyStep := (ds ++ [c]).length,
                         elements := c, selectedIds := sel } cs := by
            simp only [commitList, List.foldl_cons, hstep]
        _ = { history := [] :: (ds ++ c :: cs), historyStep := (ds ++ c :: cs).length,
              elements := (c :: cs).getLastD e, selectedIds := sel } := by
            rw [ih (ds ++ [c]) c sel]
            have hl : (c :: cs).getLastD e = cs.getLastD c := by
              cases cs with
              | nil => rfl
              | cons d cs => rfl
            rw [hl]
            simp

/-- Iterating `handleUndo` `n ≤ k` times from cursor `k` lands on cursor `k - n`
with the visible elements re-taken from the history (unless `n = 0`). -/
theorem handleUndo_iter (n : ℕ) :
    ∀ (h : List (List BoardElement)) (k : ℕ) (e : List BoardElement) (sel : List String),
      n ≤ k →
      handleUndo^[n] { history := h, historyStep := k, elements := e, selectedIds := sel }
        = { history := h, historyStep := k - n,
            elements := if n = 0 then e else h.getD (k - n) [], selectedIds := sel } := by
  induction n with
  | zero => intro h k e sel _; simp
  | succ n ih =>
      intro h k e sel hnk
      have hk : 0 < k := lt_of_lt_of_le (Nat.succ_pos n) hnk
      have hfirst :
          handleUndo { history := h, historyStep := k, elements := e, selectedIds := sel }
            = { history := h, historyStep := k - 1,
                elements := h.getD (k - 1) [], selectedIds := sel } := by
        simp [handleUndo, hk]
      rw [Function.iterate_succ_apply, hfirst,
        ih h (k - 1) (h.getD (k - 1) []) sel (by omega)]
      have hsub : k - 1 - n = k - (n + 1) := by omega
      rcases Nat.eq_zero_or_pos n with hn | hn
      · subst hn; simp
      · simp only [hsub, Nat.pos_iff_ne_zero.mp hn, if_false, if_neg (Nat.succ_ne_zero n)]

/-- Iterating `handleRedo` `n` times from cursor `k` with `k + n` still a valid
index advances the cursor to `k + n`. -/
theorem handleRedo_iter (n : ℕ) :
    ∀ (h : List (List BoardElement)) (k : ℕ) (e : List BoardElement) (sel : List String),
      k + n + 1 ≤ h.length →
      handleRedo^[n] { history := h, historyStep := k, elements := e, selectedIds := sel }
        = { history := h, historyStep := k + n,
            elements := if n = 0 then e else h.getD (k + n) [], selectedIds := sel } := by
  induction n with
  | zero => intro h k e sel _; simp
  | succ n ih =>
      intro h k e sel hlen
      have hk : k < h.length - 1 := by omega
      have hfirst :
          handleRedo { history := h, historyStep := k, elements := e, selectedIds := sel }
            = { history := h, historyStep := k + 1,
                elements := h.getD (k + 1) [], selectedIds := sel } := by
        simp [handleRedo, hk]
      rw [Function.iterate_succ_apply, hfirst,
        ih h (k + 1) (h.getD (k + 1) []) sel (by omega)]
      have hadd : k + 1 + n = k + (n + 1) := by omega
      rcases Nat.eq_zero_or_pos n with hn | hn
      · subst hn; simp
      · simp only [hadd, Nat.pos_iff_ne_zero.mp hn, if_false, if_neg (Nat.succ_ne_zero n)]

/-- Indexing a cons cell at the length of its tail returns the last element. -/
theorem getD_length_cons {α : Type} (l : List α) :
    ∀ (a d : α), (a :: l).getD l.length d = l.getLastD a := by
  induction l with
  | nil => intro a d; simp [List.getD]
  | cons b l ih =>
      intro a d
      have h1 : (a :: b :: l).getD (b :: l).length d = (b :: l).getD l.length d := by
        simp [List.getD]
      rw [h1, ih b d, List.getLastD_cons]

/-- C2: the history is linear.  `addToHistory` truncates to `[0..cursor]`,
appends, and moves the cursor to the new last index; `handleUndo` decrements
the cursor iff it is positive (no-op otherwise); `handleRedo` increments it
iff `cursor < length - 1` (no-op otherwise); after committing `cs` from the
initial state, `cs.length` undos show the initial empty collection and
`cs.length` redos restore the final collection; any `redo` directly after a
commit is a no-op (the redo branch was discarded). -/
theorem C2_history_linear (s : AppState) (c : List BoardElement)
    (cs : List (List BoardElement)) :
    (addToHistory s c).history = s.history.take (s.historyStep + 1) ++ [c]
    ∧ (addToHistory s c).historyStep
        = (s.history.take (s.historyStep + 1) ++ [c]).length - 1
    ∧ (handleUndo s).history = s.history
    ∧ (handleUndo s).historyStep = s.historyStep - 1
    ∧ (s.historyStep = 0 → handleUndo s = s)
    ∧ (handleRedo s).history = s.history
    ∧ (handleRedo s).historyStep
        = (if s.historyStep < s.history.length - 1 then s.historyStep + 1
           else s.historyStep)
    ∧ (¬ s.historyStep < s.history.length - 1 → handleRedo s = s)
    ∧ (handleUndo^[cs.length] (commitList initState cs)).elements = []
    ∧ (handleRedo^[cs.length] (handleUndo^[cs.length] (commitList initState cs))).elements
        = cs.getLastD []
    ∧ handleRedo (commitEls s c) = commitEls s c := by
  have hrun : commitList initState cs
      = { history := [] :: cs, historyStep := cs.length,
          elements := cs.getLastD [], selectedIds := [] } := by
    have := commitList_run cs [] [] []
    simpa [initState] using this
  have hundoN :
      handleUndo^[cs.length] (commitList initState cs)
        = { history := [] :: cs, historyStep := 0,
            elements := if cs.length = 0 then cs.getLastD [] else ([] :: cs).getD 0 [],
            selectedIds := [] } := by
    rw [hrun, handleUndo_iter cs.length ([] :: cs) cs.length (cs.getLastD []) []
      (le_refl _)]
    simp
  have hundoN' :
      handleUndo^[cs.length] (commitList initState cs)
        = { history := [] :: cs, historyStep := 0, elements := [], selectedIds := [] } := by
    rw [hundoN]
    rcases Nat.eq_zero_or_pos cs.length with h0 | h0
    · simp_all [List.length_eq_zero.mp h0]
    · simp [Nat.pos_iff_ne_zero.mp h0]
  refine ⟨rfl, rfl, ?_, ?_, ?_, ?_, ?_, ?_, ?_, ?_, ?_⟩
  · unfold handleUndo; split <;> rfl
  · unfold handleUndo; split
    · rfl
    · omega
  · intro h0; unfold handleUndo; simp [h0]
  · unfold handleRedo; split <;> rfl
  · unfold handleRedo; split <;> rfl
  · intro hge; unfold handleRedo; simp [hge]
  · rw [hundoN']
  · rw [hundoN',
      handleRedo_iter cs.length ([] :: cs) 0 [] [] (by simp)]
    rcases Nat.eq_zero_or_pos cs.length with h0 | h0
    · simp [List.length_eq_zero.mp h0]
    · simp only [Nat.pos_iff_ne_zero.mp h0, if_false, Nat.zero_add]
      exact getD_length_cons cs [] []
  · unfold handleRedo commitEls addToHistory
    simp

/-- Witness for C2: one commit from the initial state, one undo, shows the
empty collection again. -/
theorem C2_history_linear_witness :
    (handleUndo^[[[eH]].length] (commitList initState [[eH]])).elements = [] :=
  (C2_history_linear initState [] [[eH]]).2.2.2.2.2.2.2.2.1

/-- Witness for C3 at a concrete transform and wheel event. -/
theorem C3_wheel_zoom_anchor_witness :
    (0 : ℚ) < 1
    ∧ screenToWorld (handleWheel ⟨0, 0, 1⟩ 100 100 (-100)) 100 100
        = screenToWorld ⟨0, 0, 1⟩ 100 100 := by
  refine ⟨by norm_num, ?_⟩
  exact (C3_wheel_zoom_anchor ⟨0, 0, 1⟩ 100 100 (-100) (by norm_num)).2.2.2

/-- C1 fails on the code: a rect-tool pointer-down at (10,10) followed by
pointer-up without any move leaves the created element at `width = height = 0`,
and the discard test `el.width && el.width < 5 && el.height && el.height < 5`
is falsy at `0` (JS truthiness), so the zero-size element is KEPT, the
selection is NOT cleared, and a history entry IS committed — the opposite of
the claimed degenerate-click discard. -/
theorem C1_degenerate_click_code_bug :
    (createShapeElement 0 ToolType.rect "e1" ⟨10, 10⟩).width = some 0
    ∧ (createShapeElement 0 ToolType.rect "e1" ⟨10, 10⟩).height = some 0
    ∧ (creationPointerUp (shapePointerDown initState ToolType.rect "e1" ⟨10, 10⟩)).elements
        = [createShapeElement 0 ToolType.rect "e1" ⟨10, 10⟩]
    ∧ (creationPointerUp (shapePointerDown initState ToolType.rect "e1" ⟨10, 10⟩)).selectedIds
        = ["e1"]
    ∧ (creationPointerUp (shapePointerDown initState ToolType.rect "e1" ⟨10, 10⟩)).history
        = [[], [createShapeElement 0 ToolType.rect "e1" ⟨10, 10⟩]] := by
  refine ⟨rfl, rfl, rfl, rfl, rfl⟩

/-- C8: `handleContentChange` rewrites only the `content` field of the
element whose id matches, leaves every other field and every other element
unchanged, and neither the history snapshots, the cursor, nor the selection
change — so a text edit is not an undoable step of its own. -/
theorem C8_content_change_frame (s : AppState) (id newContent : String) :
    (handleContentChange s id newContent).history = s.history
    ∧ (handleContentChange s id newContent).historyStep = s.historyStep
    ∧ (handleContentChange s id newContent).selectedIds = s.selectedIds
    ∧ (handleContentChange s id newContent).elements
        = s.elements.map (contentUpdate id newContent)
    ∧ (∀ el : BoardElement, el.id ≠ id → contentUpdate id newContent el = el)
    ∧ (∀ el : BoardElement, el.id = id →
        (contentUpdate id newContent el).content = some newContent)
    ∧ (∀ el : BoardElement,
        (contentUpdate id newContent el).id = el.id
        ∧ (contentUpdate id newContent el).type = el.type
        ∧ (contentUpdate id newContent el).x = el.x
        ∧ (contentUpdate id newContent el).y = el.y
        ∧ (contentUpdate id newContent el).width = el.width
        ∧ (contentUpdate id newContent el).height = el.height
        ∧ (contentUpdate id newContent el).rotation = el.rotation
        ∧ (contentUpdate id newContent el).zIndex = el.zIndex
        ∧ (contentUpdate id newContent el).points = el.points
        ∧ (contentUpdate id newContent el).color = el.color
        ∧ (contentUpdate id newContent el).fillColor = el.fillColor
        ∧ (contentUpdate id newContent el).strokeColor = el.strokeColor
        ∧ (contentUpdate id newContent el).strokeWidth = el.strokeWidth
        ∧ (contentUpdate id newContent el).fontSize = el.fontSize) := by
  refine ⟨rfl, rfl, rfl, rfl, ?_, ?_, ?_⟩
  · intro el hne
    simp [contentUpdate, hne]
  · intro el heq
    simp [contentUpdate, heq]
  · intro el
    by_cases h : el.id == id <;>
      simp [contentUpdate, h]

/-- Witness for C8: a content change on a non-matching element is the identity. -/
theorem C8_content_change_frame_witness :
    contentUpdate "other" "hello" eH = eH :=
  (C8_content_change_frame initState "other" "hello").2.2.2.2.1 eH (by decide)

/-- C9: with non-empty clipboard text, the window-level paste listener appends
one element and leaves the history (snapshots and cursor) untouched, while the
explicit `handlePaste` appends the same element and commits exactly one new
history entry; the created element is a sticky or a text element. -/
theorem C9_paste_history_asymmetry (s : AppState) (id : String) (centerX centerY : ℚ)
    (text : String) (htext : text ≠ "") :
    (pasteListenerStep s id centerX centerY text).elements
        = s.elements ++ [createTextElementAtCenter s.elements.length id centerX centerY text]
    ∧ (pasteListenerStep s id centerX centerY text).history = s.history
    ∧ (pasteListenerStep s id centerX centerY text).historyStep = s.historyStep
    ∧ (pasteListenerStep s id centerX centerY text).selectedIds = s.selectedIds
    ∧ (handlePasteStep s id centerX centerY text).elements
        = s.elements ++ [createTextElementAtCenter s.elements.length id centerX centerY text]
    ∧ (handlePasteStep s id centerX centerY text).history
        = s.history.take (s.historyStep + 1)
            ++ [s.elements ++ [createTextElementAtCenter s.elements.length id centerX centerY text]]
    ∧ (handlePasteStep s id centerX centerY text).historyStep
        = (s.history.take (s.historyStep + 1)).length
    ∧ ((createTextElementAtCenter s.elements.length id centerX centerY text).type
          = ToolType.sticky
        ∨ (createTextElementAtCenter s.elements.length id centerX centerY text).type
          = ToolType.text) := by
  refine ⟨?_, ?_, ?_, ?_, ?_, ?_, ?_, ?_⟩
  · simp [pasteListenerStep, htext]
  · simp [pasteListenerStep, htext]
  · simp [pasteListenerStep, htext]
  · simp [pasteListenerStep, htext]
  · simp [handlePasteStep, htext, commitEls, addToHistory]
  · simp [handlePasteStep, htext, commitEls, addToHistory]
  · simp [handlePasteStep, htext, commitEls, addToHistory]
  · by_cases h : text.length < 50 <;>
      simp [createTextElementAtCenter, h]

/-- Witness for C9: a concrete paste of "note" via the window listener leaves
the initial history untouched. -/
theorem C9_paste_history_asymmetry_witness :
    (pasteListenerStep initState "p1" 400 300 "note").history = initState.history :=
  (C9_paste_history_asymmetry initState "p1" 400 300 "note" (by decide)).2.1

/-- C10: the free-drawing pointer-down assigns `zIndex = 0` to a highlighter
stroke and `zIndex = count + 1` to a pen stroke, appends the stroke to the
store, and the fresh highlighter stroke sits strictly below every element
with a positive `zIndex`, however many elements exist. -/
theorem C10_highlighter_zindex (s : AppState) (penConfig markerConfig : StrokeConfig)
    (id : String) (pos : Point) (count : ℕ) :
    (drawingElement count ToolType.highlighter penConfig markerConfig id pos).zIndex = 0
    ∧ (drawingElement count ToolType.pen penConfig markerConfig id pos).zIndex
        = (count : Int) + 1
    ∧ (drawingPointerDown s ToolType.highlighter penConfig markerConfig id pos).elements
        = s.elements
            ++ [drawingElement s.elements.length ToolType.highlighter penConfig markerConfig id pos]
    ∧ (∀ el ∈ s.elements, 0 < el.zIndex →
        (drawingElement s.elements.length ToolType.highlighter penConfig markerConfig
            id pos).zIndex < el.zIndex) := by
  refine ⟨rfl, by simp [drawingElement], rfl, ?_⟩
  intro el _ hpos
  simpa [drawingElement] using hpos

/-- The min-fold is below its seed. -/
theorem foldMin_le_init {α : Type} (f : α → ℚ) :
    ∀ (l : List α) (d : ℚ), foldMin f d l ≤ d := by
  intro l
  induction l with
  | nil => intro d; exact le_refl d
  | cons x l ih =>
      intro d
      calc foldMin f d (x :: l) = foldMin f (min d (f x)) l := rfl
        _ ≤ min d (f x) := ih (min d (f x))
        _ ≤ d := min_le_left _ _

/-- The min-fold is below every member's value. -/
theorem foldMin_le_mem {α : Type} (f : α → ℚ) :
    ∀ (l : List α) (d : ℚ) (x : α), x ∈ l → foldMin f d l ≤ f x := by
  intro l
  induction l with
  | nil => intro d x hx; exact absurd hx (List.not_mem_nil x)
  | cons y l ih =>
      intro d x hx
      rcases List.mem_cons.mp hx with h | h
      · subst h
        calc foldMin f d (x :: l) = foldMin f (min d (f x)) l := rfl
          _ ≤ min d (f x) := foldMin_le_init f l _
          _ ≤ f x := min_le_right _ _
      · exact ih (min d (f y)) x h

/-- The min-fold equals the seed or some member's value. -/
theorem foldMin_attained {α : Type} (f : α → ℚ) :
    ∀ (l : List α) (d : ℚ), foldMin f d l = d ∨ ∃ x ∈ l, foldMin f d l = f x := by
  intro l
  induction l with
  | nil => intro d; exact Or.inl rfl
  | cons y l ih =>
      intro d
      have hstep : foldMin f d (y :: l) = foldMin f (min d (f y)) l := rfl
      rcases ih (min d (f y)) with h | ⟨x, hx, hfx⟩
      · rcases min_cases d (f y) with ⟨hmin, _⟩ | ⟨hmin, _⟩
        · exact Or.inl (by rw [hstep, h, hmin])
        · exact Or.inr ⟨y, List.mem_cons_self y l, by rw [hstep, h, hmin]⟩
      · exact Or.inr ⟨x, List.mem_cons_of_mem y hx, by rw [hstep, hfx]⟩

/-- The max-fold is above its seed. -/
theorem foldMax_init_le {α : Type} (f : α → ℚ) :
    ∀ (l : List α) (d : ℚ), d ≤ foldMax f d l := by
  intro l
  induction l with
  | nil => intro d; exact le_refl d
  | cons x l ih =>
      intro d
      calc d ≤ max d (f x) := le_max_left _ _
        _ ≤ foldMax f (max d (f x)) l := ih (max d (f x))
        _ = foldMax f d (x :: l) := rfl

/-- The max-fold is above every member's value. -/
theorem foldMax_mem_le {α : Type} (f : α → ℚ) :
    ∀ (l : List α) (d : ℚ) (x : α), x ∈ l → f x ≤ foldMax f d l := by
  intro l
  induction l with
  | nil => intro d x hx; exact absurd hx (List.not_mem_nil x)
  | cons y l ih =>
      intro d x hx
      rcases List.mem_cons.mp hx with h | h
      · subst h
        calc f x ≤ max d (f x) := le_max_right _ _
          _ ≤ foldMax f (max d (f x)) l := foldMax_init_le f l _
          _ = foldMax f d (x :: l) := rfl
      · exact ih (max d (f y)) x h

/-- The max-fold equals the seed or some member's value. -/
theorem foldMax_attained {α : Type} (f : α → ℚ) :
    ∀ (l : List α) (d : ℚ), foldMax f d l = d ∨ ∃ x ∈ l, foldMax f d l = f x := by
  intro l
  induction l with
  | nil => intro d; exact Or.inl rfl
  | cons y l ih =>
      intro d
      have hstep : foldMax f d (y :: l) = foldMax f (max d (f y)) l := rfl
      rcases ih (max d (f y)) with h | ⟨x, hx, hfx⟩
      · rcases max_cases d (f y) with ⟨hmax, _⟩ | ⟨hmax, _⟩
        · exact Or.inl (by rw [hstep, h, hmax])
        · exact Or.inr ⟨y, List.mem_cons_self y l, by rw [hstep, h, hmax]⟩
      · exact Or.inr ⟨x, List.mem_cons_of_mem y hx, by rw [hstep, hfx]⟩

/-- C5 as stated fails on the code: for a one-point stroke the span is 0, so
the claimed `width = span + 2*5 = 10` disagrees with `normalizeDrawing`,
which floors the padded box at 20 (`Math.max(20, ...)`). -/
theorem C5_normalize_counterexample :
    (normalizeDrawing ePenOne).width = some 20
    ∧ (normalizeDrawing ePenOne).width ≠ some (0 + 5 * 2)
    ∧ (normalizeDrawing ePenOne).height = some 20
    ∧ (normalizeDrawing ePenOne).x = 2
    ∧ (normalizeDrawing ePenOne).y = 4 := by
  norm_num [normalizeDrawing, ePenOne, foldMin, foldMax]

/-- C5 amended: for a non-empty point list, `normalizeDrawing` sets
`x = minX - 5`, `y = minY - 5`, `width/height = max(20, span + 5*2)` (the
20-unit floor is the amendment), re-bases every point by
`(p - min + 5)`, where the min/max folds are the tight bounding box of the
points (lower/upper bounds, both attained); on the spec's example
`[(10,10),(50,10),(50,50)]` the result is `x=5, y=5, width=height=50` with
first point `(5,5)`. -/
theorem C5_normalize_amended (el : BoardElement) (p : Point) (ps : List Point)
    (hp : el.points = some (p :: ps)) :
    (normalizeDrawing el).x = foldMin Point.x p.x ps - 5
    ∧ (normalizeDrawing el).y = foldMin Point.y p.y ps - 5
    ∧ (normalizeDrawing el).width
        = some (max 20 (foldMax Point.x p.x ps - foldMin Point.x p.x ps + 5 * 2))
    ∧ (normalizeDrawing el).height
        = some (max 20 (foldMax Point.y p.y ps - foldMin Point.y p.y ps + 5 * 2))
    ∧ (normalizeDrawing el).points
        = some ((p :: ps).map (fun q =>
            Point.mk (q.x - foldMin Point.x p.x ps + 5) (q.y - foldMin Point.y p.y ps + 5)))
    ∧ (∀ q ∈ p :: ps,
        foldMin Point.x p.x ps ≤ q.x ∧ q.x ≤ foldMax Point.x p.x ps
        ∧ foldMin Point.y p.y ps ≤ q.y ∧ q.y ≤ foldMax Point.y p.y ps)
    ∧ (∃ q ∈ p :: ps, q.x = foldMin Point.x p.x ps)
    ∧ (∃ q ∈ p :: ps, q.x = foldMax Point.x p.x ps)
    ∧ (∃ q ∈ p :: ps, q.y = foldMin Point.y p.y ps)
    ∧ (∃ q ∈ p :: ps, q.y = foldMax Point.y p.y ps)
    ∧ (normalizeDrawing ePenTri).x = 5
    ∧ (normalizeDrawing ePenTri).y = 5
    ∧ (normalizeDrawing ePenTri).width = some 50
    ∧ (normalizeDrawing ePenTri).height = some 50
    ∧ (normalizeDrawing ePenTri).points
        = some [⟨5, 5⟩, ⟨45, 5⟩, ⟨45, 45⟩] := by
  have hminx : ∀ q ∈ p :: ps, foldMin Point.x p.x ps ≤ q.x := by
    intro q hq
    rcases List.mem_cons.mp hq with h | h
    · subst h; exact foldMin_le_init Point.x ps q.x
    · exact foldMin_le_mem Point.x ps p.x q h
  have hminy : ∀ q ∈ p :: ps, foldMin Point.y p.y ps ≤ q.y := by
    intro q hq
    rcases List.mem_cons.mp hq with h | h
    · subst h; exact foldMin_le_init Point.y ps q.y
    · exact foldMin_le_mem Point.y ps p.y q h
  have hmaxx : ∀ q ∈ p :: ps, q.x ≤ foldMax Point.x p.x ps := by
    intro q hq
    rcases List.mem_cons.mp hq with h | h
    · subst h; exact foldMax_init_le Point.x ps q.x
    · exact foldMax_mem_le Point.x ps p.x q h
  have hmaxy : ∀ q ∈ p :: ps, q.y ≤ foldMax Point.y p.y ps := by
    intro q hq
    rcases List.mem_cons.mp hq with h | h
    · subst h; exact foldMax_init_le Point.y ps q.y
    · exact foldMax_mem_le Point.y ps p.y q h
  have hattmin : ∀ (f : Point → ℚ),
      ∃ q ∈ p :: ps, f q = foldMin f (f p) ps := by
    intro f
    rcases foldMin_attained f ps (f p) with h | ⟨x, hx, hfx⟩
    · exact ⟨p, List.mem_cons_self p ps, h.symm⟩
    · exact ⟨x, List.mem_cons_of_mem p hx, hfx.symm⟩
  have hattmax : ∀ (f : Point → ℚ),
      ∃ q ∈ p :: ps, f q = foldMax f (f p) ps := by
    intro f
    rcases foldMax_attained f ps (f p) with h | ⟨x, hx, hfx⟩
    · exact ⟨p, List.mem_cons_self p ps, h.symm⟩
    · exact ⟨x, List.mem_cons_of_mem p hx, hfx.symm⟩
  refine ⟨?_, ?_, ?_, ?_, ?_, ?_, hattmin Point.x, hattmax Point.x,
    hattmin Point.y, hattmax Point.y, ?_, ?_, ?_, ?_, ?_⟩
  · simp [normalizeDrawing, hp]
  · simp [normalizeDrawing, hp]
  · simp [normalizeDrawing, hp]
  · simp [normalizeDrawing, hp]
  · simp [normalizeDrawing, hp]
  · intro q hq
    exact ⟨hminx q hq, hmaxx q hq, hminy q hq, hmaxy q hq⟩
  · norm_num [normalizeDrawing, ePenTri, foldMin, foldMax]
  · norm_num [normalizeDrawing, ePenTri, foldMin, foldMax]
  · norm_num [normalizeDrawing, ePenTri, foldMin, foldMax]
  · norm_num [normalizeDrawing, ePenTri, foldMin, foldMax]
  · norm_num [normalizeDrawing, ePenTri, foldMin, foldMax, Point.mk.injEq]

/-- Witness for C5's amended statement at a concrete two-point stroke. -/
theorem C5_normalize_amended_witness :
    (normalizeDrawing
        { id := "d4", type := ToolType.pen, x := 0, y := 0,
          points := some [⟨0, 0⟩, ⟨3, 4⟩], zIndex := 1 }).x
      = foldMin Point.x (Point.mk 0 0).x [⟨3, 4⟩] - 5 :=
  (C5_normalize_amended
    { id := "d4", type := ToolType.pen, x := 0, y := 0,
      points := some [⟨0, 0⟩, ⟨3, 4⟩], zIndex := 1 }
    ⟨0, 0⟩ [⟨3, 4⟩] rfl).1

/-- C6: on every resize move event the resulting width and height are at
least 20; when the pre-clamp width falls under 20 on a `w` handle the
position is clamped so the right edge stays at `initialX + initialWidth`
(and likewise `n` keeps the bottom edge); a selected element updated by the
move carries exactly the clamped box; dragging the `w` handle of a
100-wide box 200 units rightward yields width 20 with the right edge pinned. -/
theorem C6_resize_floor (r : ResizeInfo) (posX posY : ℚ) :
    20 ≤ (applyResize r posX posY).w
    ∧ 20 ≤ (applyResize r posX posY).h
    ∧ (rawResizeWidth r (posX - r.startX) < 20 → hasW r.handle = true →
        (applyResize r posX posY).x + (applyResize r posX posY).w
          = r.initialX + r.initialWidth)
    ∧ (rawResizeHeight r (posY - r.startY) < 20 → hasN r.handle = true →
        (applyResize r posX posY).y + (applyResize r posX posY).h
          = r.initialY + r.initialHeight)
    ∧ (∀ (els : List BoardElement) (selId : String),
        ∀ el ∈ resizeMove els selId r posX posY, el.id = selId →
          el.width = some (applyResize r posX posY).w
          ∧ el.height = some (applyResize r posX posY).h
          ∧ el.x = (applyResize r posX posY).x
          ∧ el.y = (applyResize r posX posY).y)
    ∧ (∀ x0 y0 sx sy h0 : ℚ,
        (applyResize
            { handle := HandleDir.w, startX := sx, startY := sy, initialX := x0,
              initialY := y0, initialWidth := 100, initialHeight := h0 }
            (sx + 200) sy).w = 20
        ∧ (applyResize
            { handle := HandleDir.w, startX := sx, startY := sy, initialX := x0,
              initialY := y0, initialWidth := 100, initialHeight := h0 }
            (sx + 200) sy).x + 20 = x0 + 100) := by
  refine ⟨?_, ?_, ?_, ?_, ?_, ?_⟩
  · simp only [applyResize]
    split <;> linarith
  · simp only [applyResize]
    split <;> linarith
  · intro hw hW
    simp only [applyResize, hw, hW, and_true, if_pos, if_true]
    norm_num
  · intro hh hN
    simp only [applyResize, hh, hN, and_true, if_pos, if_true]
    norm_num
  · intro els selId el hel hid
    rcases List.mem_map.mp hel with ⟨el0, hel0, heq⟩
    by_cases h0 : el0.id == selId
    · rw [if_pos h0] at heq
      subst heq
      exact ⟨rfl, rfl, rfl, rfl⟩
    · rw [if_neg h0] at heq
      subst heq
      exact absurd hid (by simpa using h0)
  · intro x0 y0 sx sy h0
    have hdx : sx + 200 - sx = (200 : ℚ) := by ring
    have hraw : rawResizeWidth
        { handle := HandleDir.w, startX := sx, startY := sy, initialX := x0,
          initialY := y0, initialWidth := 100, initialHeight := h0 }
        (sx + 200 - sx) = -100 := by
      simp [rawResizeWidth, hasE, hasW, hdx]
      norm_num
    constructor
    · simp only [applyResize, hraw, hasW]
      norm_num
    · simp only [applyResize, hraw, hasW]
      norm_num

/-- Witness for C6 at a concrete resize gesture: the `w` handle dragged 200
units rightward from a 100-wide box at the origin. -/
theorem C6_resize_floor_witness :
    (applyResize
        { handle := HandleDir.w, startX := 0, startY := 0, initialX := 0,
          initialY := 0, initialWidth := 100, initialHeight := 100 }
        200 0).w = 20
    ∧ (applyResize
        { handle := HandleDir.w, startX := 0, startY := 0, initialX := 0,
          initialY := 0, initialWidth := 100, initialHeight := 100 }
        200 0).x + 20 = 0 + 100 := by
  have h := (C6_resize_floor
      { handle := HandleDir.w, startX := 0, startY := 0, initialX := 0,
        initialY := 0, initialWidth := 100, initialHeight := 100 }
      200 0).2.2.2.2.2 0 0 0 0 100
  have h200 : (0 : ℚ) + 200 = 200 := by norm_num
  rw [h200] at h
  exact h

/-- The `maxX` component of the union-bounds fold is the max-fold of the
right edges. -/
theorem unionBounds_maxX (first : BoardElement) (rest : List BoardElement) :
    (unionBounds first rest).maxX
      = foldMax (fun el => el.x + el.width.getD 0)
          (first.x + first.width.getD 0) rest := by
  suffices h : ∀ (l : List BoardElement) (b : Bounds),
      (l.foldl
        (fun b el =>
          { minX := min b.minX el.x
            maxX := max b.maxX (el.x + el.width.getD 0)
            minY := min b.minY el.y
            maxY := max b.maxY (el.y + el.height.getD 0) })
        b).maxX
        = foldMax (fun el => el.x + el.width.getD 0) b.maxX l by
    exact h rest _
  intro l
  induction l with
  | nil => intro b; rfl
  | cons x l ih => intro b; exact ih _

/-- C7: with more than one selected element, aligning `right` sets each
selected element's x to `maxX - width` over the union bounding box (left
gets `minX`, center gets `centerX - width/2`), leaves every y unchanged,
leaves unselected elements unchanged, and commits once; `maxX` is the
maximum selected right edge (an upper bound, and attained), so afterwards
every selected element's right edge equals it. -/
theorem C7_align_right (rectW rectH : ℚ) (vt : ViewTransform) (s : AppState)
    (first : BoardElement) (rest : List BoardElement)
    (hfil : s.elements.filter (fun el => s.selectedIds.contains el.id) = first :: rest)
    (hrest : rest ≠ []) :
    (handleAlign rectW rectH vt AlignType.right s).elements
        = s.elements.map (fun el =>
            if s.selectedIds.contains el.id then
              { el with x := (unionBounds first rest).maxX - el.width.getD 0 }
            else el)
    ∧ (∀ el ∈ first :: rest,
        el.x + el.width.getD 0 ≤ (unionBounds first rest).maxX)
    ∧ (∃ el ∈ first :: rest,
        el.x + el.width.getD 0 = (unionBounds first rest).maxX)
    ∧ (∀ el ∈ (handleAlign rectW rectH vt AlignType.right s).elements,
        s.selectedIds.contains el.id = true →
          el.x + el.width.getD 0 = (unionBounds first rest).maxX)
    ∧ (handleAlign rectW rectH vt AlignType.right s).elements.map (fun el => el.y)
        = s.elements.map (fun el => el.y)
    ∧ (handleAlign rectW rectH vt AlignType.right s).history
        = s.history.take (s.historyStep + 1)
            ++ [(handleAlign rectW rectH vt AlignType.right s).elements]
    ∧ (handleAlign rectW rectH vt AlignType.left s).elements
        = s.elements.map (fun el =>
            if s.selectedIds.contains el.id then
              { el with x := (unionBounds first rest).minX }
            else el)
    ∧ (handleAlign rectW rectH vt AlignType.center s).elements
        = s.elements.map (fun el =>
            if s.selectedIds.contains el.id then
              { el with x :=
                  ((unionBounds first rest).minX + (unionBounds first rest).maxX) / 2
                    - el.width.getD 0 / 2 }
            else el) := by
  have hne : s.selectedIds.isEmpty = false := by
    cases hsel : s.selectedIds with
    | nil =>
        exfalso
        rw [hsel] at hfil
        simp at hfil
    | cons a l => rfl
  have hre : rest.isEmpty = false := by
    cases rest with
    | nil => exact absurd rfl hrest
    | cons a l => rfl
  have hred : ∀ ty : AlignType,
      handleAlign rectW rectH vt ty s
        = commitEls s (s.elements.map (fun el =>
            if s.selectedIds.contains el.id then
              { el with
                  x := alignNewX ty (unionBounds first rest) el
                  y := alignNewY ty (unionBounds first rest) el }
            else el)) := by
    intro ty
    simp only [handleAlign, hne, Bool.false_eq_true, if_false, hfil, hre]
  have helems : (handleAlign rectW rectH vt AlignType.right s).elements
      = s.elements.map (fun el =>
          if s.selectedIds.contains el.id then
            { el with x := (unionBounds first rest).maxX - el.width.getD 0 }
          else el) := by
    rw [hred AlignType.right]
    rfl
  have hub : ∀ el ∈ first :: rest,
      el.x + el.width.getD 0 ≤ (unionBounds first rest).maxX := by
    rw [unionBounds_maxX]
    intro el hel
    rcases List.mem_cons.mp hel with h | h
    · subst h
      exact foldMax_init_le _ rest _
    · exact foldMax_mem_le _ rest _ el h
  refine ⟨helems, hub, ?_, ?_, ?_, ?_, ?_, ?_⟩
  · rw [unionBounds_maxX]
    rcases foldMax_attained (fun el => el.x + el.width.getD 0) rest
        (first.x + first.width.getD 0) with h | ⟨x, hx, hfx⟩
    · exact ⟨first, List.mem_cons_self first rest, h.symm⟩
    · exact ⟨x, List.mem_cons_of_mem first hx, hfx.symm⟩
  · intro el hel hsel
    rw [helems] at hel
    rcases List.mem_map.mp hel with ⟨el0, hel0, heq⟩
    by_cases h0 : s.selectedIds.contains el0.id
    · rw [if_pos h0] at heq
      subst heq
      simp only []
      ring
    · rw [if_neg h0] at heq
      subst heq
      exact absurd hsel h0
  · rw [helems, List.map_map]
    have hfun : ((fun el : BoardElement => el.y) ∘ fun el =>
        if s.selectedIds.contains el.id then
          { el with x := (unionBounds first rest).maxX - el.width.getD 0 }
        else el) = fun el : BoardElement => el.y := by
      funext el
      by_cases h0 : s.selectedIds.contains el.id
      · rw [Function.comp_apply, if_pos h0]
      · rw [Function.comp_apply, if_neg h0]
    rw [hfun]
  · rw [hred AlignType.right]
    rfl
  · rw [hred AlignType.left]
    rfl
  · rw [hred AlignType.center]
    rfl

/-- Witness for C7: two selected elements, right edges 50 and 130, aligned
right both end at 130. -/
theorem C7_align_right_witness :
    (handleAlign 800 600 ⟨0, 0, 1⟩ AlignType.right sAlign).elements
      = [{ elA7 with x := 80 }, { elB7 with x := 100 }] := by
  have h := (C7_align_right 800 600 ⟨0, 0, 1⟩ sAlign elA7 [elB7] rfl
      (List.cons_ne_nil elB7 [])).1
  rw [h]
  simp only [sAlign, elA7, elB7, unionBounds, List.foldl, List.map]
  norm_num

/-- Characterization of the duplicate loop when every target is found and
enough fresh ids are supplied: one duplicate per target, ids taken from the
fresh supply in order, and the `i`-th duplicate is its original shifted by
(+20,+20) with `zIndex = base + k + i + 1`. -/
theorem mkDuplicates_char (els : List BoardElement) (base : ℕ) :
    ∀ (ts fs : List String) (k : ℕ),
      (∀ tid ∈ ts, (els.find? (fun e => e.id == tid)).isSome) →
      ts.length ≤ fs.length →
      (mkDuplicates els base k ts fs).length = ts.length
      ∧ (mkDuplicates els base k ts fs).map (fun d => d.id) = fs.take ts.length
      ∧ ∀ i, i < ts.length →
          (els.find? (fun e => e.id == ts.getD i "")).map
              (fun el =>
                { el with
                    id := fs.getD i ""
                    x := el.x + 20
                    y := el.y + 20
                    zIndex := ((base + k + i + 1 : ℕ) : Int) })
            = some ((mkDuplicates els base k ts fs).getD i default) := by
  intro ts
  induction ts with
  | nil =>
      intro fs k _ _
      refine ⟨rfl, by simp [mkDuplicates], ?_⟩
      intro i hi
      exact absurd hi (by simp)
  | cons t ts ih =>
      intro fs k hfound hlen
      obtain ⟨el, hel⟩ := Option.isSome_iff_exists.mp (hfound t (List.mem_cons_self t ts))
      cases fs with
      | nil => simp at hlen
      | cons f fs =>
          have hred : mkDuplicates els base k (t :: ts) (f :: fs)
              = { el with id := f, x := el.x + 20, y := el.y + 20,
                          zIndex := ((base + k + 1 : ℕ) : Int) }
                :: mkDuplicates els base (k + 1) ts fs := by
            simp [mkDuplicates, hel]
          obtain ⟨ihlen, ihmap, ihidx⟩ :=
            ih fs (k + 1) (fun tid h => hfound tid (List.mem_cons_of_mem t h))
              (by simpa using hlen)
          refine ⟨?_, ?_, ?_⟩
          · rw [hred]
            simp [ihlen]
          · rw [hred]
            simp only [List.map_cons, ihmap, List.length_cons, List.take_succ_cons]
          · intro i hi
            cases i with
            | zero =>
                rw [hred]
                simp [hel]
            | succ i =>
                rw [hred]
                have hgoal := ihidx i (by simp only [List.length_cons] at hi; omega)
                have hcast : base + (k + 1) + i + 1 = base + k + (i + 1) + 1 := by omega
                rw [hcast] at hgoal
                simpa using hgoal

/-- C4 fails on the code: the duplicate's z-index is count-based
(`elements.length + duplicates.length + 1`), not max-based.  With one stored
element of `zIndex = 5`, its duplicate gets `zIndex = 2`, which is neither
above every existing z-index nor `currentMax + 1 + position = 6`. -/
theorem C4_duplicate_counterexample :
    ((duplicateAction sDup ["a"] ["b"]).elements.getD 1 default).zIndex = 2
    ∧ elZ ∈ sDup.elements
    ∧ ¬ elZ.zIndex < ((duplicateAction sDup ["a"] ["b"]).elements.getD 1 default).zIndex
    ∧ ((duplicateAction sDup ["a"] ["b"]).elements.getD 1 default).zIndex
        ≠ elZ.zIndex + 1 := by
  refine ⟨rfl, by simp [sDup], by decide, by decide⟩

/-- C4 amended: duplication of a non-empty target set (all present, with a
supply of fresh, pairwise-distinct ids disjoint from the store) yields one
new element per target, id taken from the fresh supply (hence distinct from
every existing id and from each other), offset by exactly (+20,+20), with
`zIndex = elements.length + position + 1` (count-based, the amendment);
afterwards the selection is exactly the new ids, and one commit happens. -/
theorem C4_duplicate_amended (s : AppState) (targetIds freshIds : List String)
    (hne : targetIds ≠ [])
    (hfound : ∀ tid ∈ targetIds, (s.elements.find? (fun e => e.id == tid)).isSome)
    (hlen : targetIds.length ≤ freshIds.length)
    (hnodup : freshIds.Nodup)
    (hdisj : ∀ f ∈ freshIds, ∀ el ∈ s.elements, el.id ≠ f) :
    (duplicateAction s targetIds freshIds).elements
        = s.elements ++ dupsOf s targetIds freshIds
    ∧ (dupsOf s targetIds freshIds).length = targetIds.length
    ∧ (dupsOf s targetIds freshIds).map (fun d => d.id)
        = freshIds.take targetIds.length
    ∧ ((dupsOf s targetIds freshIds).map (fun d => d.id)).Nodup
    ∧ (∀ d ∈ dupsOf s targetIds freshIds, ∀ el ∈ s.elements, el.id ≠ d.id)
    ∧ (∀ i, i < targetIds.length →
        (s.elements.find? (fun e => e.id == targetIds.getD i "")).map
            (fun el =>
              { el with
                  id := freshIds.getD i ""
                  x := el.x + 20
                  y := el.y + 20
                  zIndex := ((s.elements.length + i + 1 : ℕ) : Int) })
          = some ((dupsOf s targetIds freshIds).getD i default))
    ∧ (duplicateAction s targetIds freshIds).selectedIds
        = (dupsOf s targetIds freshIds).map (fun d => d.id)
    ∧ (duplicateAction s targetIds freshIds).history
        = s.history.take (s.historyStep + 1)
            ++ [s.elements ++ dupsOf s targetIds freshIds] := by
  obtain ⟨hclen, hcmap, hcidx⟩ :=
    mkDuplicates_char s.elements s.elements.length targetIds freshIds 0 hfound hlen
  unfold dupsOf
  refine ⟨rfl, hclen, hcmap, ?_, ?_, ?_, rfl, rfl⟩
  · rw [hcmap]
    exact (List.take_sublist _ _).nodup hnodup
  · intro d hd el hel
    have hid := List.mem_map_of_mem (fun d : BoardElement => d.id) hd
    rw [hcmap] at hid
    exact hdisj d.id ((List.take_sublist _ _).subset hid) el hel
  · intro i hi
    have h := hcidx i hi
    have hz : s.elements.length + 0 + i + 1 = s.elements.length + i + 1 := by omega
    rw [hz] at h
    exact h

/-- Witness for C4's amended statement: duplicating `{a, b}` with fresh ids
`{c, d}` selects exactly `[c, d]`. -/
theorem C4_duplicate_amended_witness :
    (duplicateAction sDup2 ["a", "b"] ["c", "d"]).selectedIds = ["c", "d"] := by
  have h := C4_duplicate_amended sDup2 ["a", "b"] ["c", "d"]
    (by decide) (by decide) (by decide) (by decide) (by decide)
  rw [h.2.2.2.2.2.2.1, h.2.2.1]
  rfl

/-- Witness for C10: with one positive-z element in the store, a fresh
highlighter stroke is strictly below it. -/
theorem C10_highlighter_zindex_witness :
    (drawingElement 1 ToolType.highlighter ⟨"#1f2937", 3⟩ ⟨"#fde047", 25⟩ "d1"
        ⟨0, 0⟩).zIndex < eH.zIndex := by
  have h := C10_highlighter_zindex
      { history := [[], [eH]], historyStep := 1, elements := [eH], selectedIds := [] }
      ⟨"#1f2937", 3⟩ ⟨"#fde047", 25⟩ "d1" ⟨0, 0⟩ 1
  exact h.2.2.2 eH (by decide) (by decide)

end IdeaFlow
